import Mathlib

/-
Verification development for the astrogonia Astro integration.

The embedding models the HTML document transformation pipeline that exists in
two variants in the repository:
  - the post-build variant, function processHtmlString / processHtmlFile in
    src/index.ts (modelled here with the prefix idx), and
  - the dev-middleware variant, function processHtmlString / onRequest in the
    middleware module (modelled here with the prefix mw).

Strings are modelled as lists of characters (Str).  Each fixed regular
expression of the source is modelled by a dedicated scanner that follows the
leftmost-match, greedy and backtracking semantics of the JavaScript regex
engine for that concrete pattern.  External collaborators are parameters:
  - render (gonia), of type Str -> Scope V -> Except String Str, an
    exception modelled as Except.error;
  - JSON.parse modelled as a parameter jsonParse : Str -> Option (Scope V),
    Option.none standing for a thrown parse error (the sources wrap every
    JSON.parse call in try/catch);
  - the filesystem modelled as readFileFn : Str -> Option Str, Option.none
    standing for any read failure (the sources wrap the template read in
    try/catch);
  - node path.join modelled as slash-separated concatenation.
The JavaScript String.replace substitution semantics for replacement strings
(the dollar escape forms) is modelled faithfully by jsSubstitution, because
the sources feed data-dependent replacement strings to String.replace.
The whitespace class is modelled by the ASCII part of the JS class.
-/

abbrev Str := List Char

/-- Character list of a string literal. -/
def chars (s : String) : Str := s.data

/-- ASCII whitespace, the ASCII part of the JS regex class for whitespace. -/
def isWs (c : Char) : Bool :=
  c == ' ' || c == '\t' || c == '\n' || c == '\r' || c.toNat == 11 || c.toNat == 12

/-- ASCII lowercasing, used for the case-insensitive regex flags. -/
def lowerChar (c : Char) : Char :=
  if 65 ≤ c.toNat && c.toNat ≤ 90 then Char.ofNat (c.toNat + 32) else c

/-- Word character of the JS regex word-boundary assertion. -/
def isWordChar (c : Char) : Bool :=
  (97 ≤ (lowerChar c).toNat && (lowerChar c).toNat ≤ 122) ||
  (48 ≤ c.toNat && c.toNat ≤ 57) || c == '_'

/-- Name character of the directive-name class (letters, case-insensitive, and dash). -/
def isNameChar (c : Char) : Bool :=
  (97 ≤ (lowerChar c).toNat && (lowerChar c).toNat ≤ 122) || c == '-'

/-- Case-insensitive prefix test. -/
def isPrefixCI : Str → Str → Bool
  | [], _ => true
  | _ :: _, [] => false
  | p :: ps, c :: cs => lowerChar p == lowerChar c && isPrefixCI ps cs

/-- Substring containment (case-sensitive). -/
def containsSubstr : Str → Str → Bool
  | [], pat => pat.isPrefixOf ([] : Str)
  | c :: rest, pat => pat.isPrefixOf (c :: rest) || containsSubstr rest pat

/-- JS String.prototype.trim on the ASCII whitespace class. -/
def trimStr (s : Str) : Str :=
  ((s.dropWhile isWs).reverse.dropWhile isWs).reverse

/-- Worker for replaceAll: the skip counter carries the tail of a replaced
match so that the recursion stays structural. -/
def replaceAllGo (pat rep : Str) : Nat → Str → Str
  | _, [] => []
  | Nat.succ k, _ :: rest => replaceAllGo pat rep k rest
  | 0, c :: rest =>
    if pat.isPrefixOf (c :: rest) then rep ++ replaceAllGo pat rep (pat.length - 1) rest
    else c :: replaceAllGo pat rep 0 rest

/-- JS String.replace with a global literal pattern and a literal replacement
that contains no dollar escape (all seven entity replacements are such). -/
def replaceAll (pat rep s : Str) : Str := replaceAllGo pat rep 0 s

/-- Entity decoder decodeHtmlEntities of the middleware module; the post-build
variant of processHtmlString inlines the identical chain of seven global
replacements, in the same order, with the ampersand decoded last. -/
def decodeHtmlEntities (s : Str) : Str :=
  replaceAll (chars "&amp;") ['&']
    (replaceAll (chars "&gt;") ['>']
      (replaceAll (chars "&lt;") ['<']
        (replaceAll (chars "&apos;") [Char.ofNat 39]
          (replaceAll (chars "&#39;") [Char.ofNat 39]
            (replaceAll (chars "&#34;") ['"']
              (replaceAll (chars "&quot;") ['"'] s))))))

/-- Full-document test: the anchored case-insensitive regex accepting optional
leading whitespace followed by a doctype or an html root tag. -/
def isFullDocument (s : Str) : Bool :=
  isPrefixCI (chars "<!DOCTYPE") (s.dropWhile isWs) ||
  isPrefixCI (chars "<html") (s.dropWhile isWs)

/-- Decomposition of a document around the single greedy body match of the
regex matching a body open tag, its attribute text, the greedy content and
the last closing body tag. -/
structure BodyMatch where
  pre : Str
  openTag : Str
  attrs : Str
  content : Str
  closeTag : Str
  post : Str
deriving DecidableEq

/-- Worker locating the last case-insensitive occurrence of pat, splitting the
input into the part before, the matched slice in original casing, and the part
after. -/
def splitLastCIAux (pat : Str) (acc : Str) (best : Option (Str × Str × Str)) :
    Str → Option (Str × Str × Str)
  | [] => best
  | c :: rest =>
    splitLastCIAux pat (c :: acc)
      (if isPrefixCI pat (c :: rest) then
        some (acc.reverse, (c :: rest).take pat.length, (c :: rest).drop pat.length)
      else best)
      rest

/-- Split around the last case-insensitive occurrence of pat. -/
def splitLastCI (pat s : Str) : Option (Str × Str × Str) :=
  splitLastCIAux pat [] none s

/-- Body match attempt at one position: a case-insensitive body open tag, the
longest run without a closing angle bracket, the closing angle bracket, then
the greedy content running to the last case-insensitive closing body tag. -/
def tryBodyAt (s : Str) : Option (Str × Str × Str × Str × Str) :=
  if isPrefixCI (chars "<body") s then
    let openT := s.take 5
    let rest5 := s.drop 5
    let attrs := rest5.takeWhile (fun c => c != '>')
    match rest5.dropWhile (fun c => c != '>') with
    | '>' :: after =>
      match splitLastCI (chars "</body>") after with
      | some (content, closeT, post) => some (openT, attrs, content, closeT, post)
      | none => none
    | _ => none
  else none

/-- Worker scanning for the leftmost position at which the body regex matches. -/
def matchBodyAux (acc : Str) : Str → Option BodyMatch
  | [] => none
  | c :: rest =>
    match tryBodyAt (c :: rest) with
    | some (openT, attrs, content, closeT, post) =>
      some ⟨acc.reverse, openT, attrs, content, closeT, post⟩
    | none => matchBodyAux (c :: acc) rest

/-- Leftmost match of the body regex used by both pipeline variants. -/
def matchBody (s : Str) : Option BodyMatch := matchBodyAux [] s

/-- Attribute-value match attempt at one position: the key followed by a
double-quoted or else a single-quoted value.  Both variants use this shape of
regex for the scope key and for the template key. -/
def tryAttrValueAt (key : Str) (s : Str) : Option Str :=
  if (key ++ ['=', '"']).isPrefixOf s then
    let rest := s.drop (key.length + 2)
    let v := rest.takeWhile (fun c => c != '"')
    if v.length < rest.length then some v else none
  else if (key ++ ['=', Char.ofNat 39]).isPrefixOf s then
    let rest := s.drop (key.length + 2)
    let v := rest.takeWhile (fun c => c != Char.ofNat 39)
    if v.length < rest.length then some v else none
  else none

/-- Worker for attrValueMatch. -/
def attrValueMatchAux (key : Str) : Str → Option Str
  | [] => none
  | c :: rest =>
    match tryAttrValueAt key (c :: rest) with
    | some v => some v
    | none => attrValueMatchAux key rest

/-- First match of the key-value regex, returning the quoted value (the
defined capture group of whichever alternative matched). -/
def attrValueMatch (key : Str) (s : Str) : Option Str := attrValueMatchAux key s

/-- Negative-lookahead body of the directive regex: true when the text after
the directive prefix reads scope at a word boundary (case-insensitive). -/
def scopeLookahead (s : Str) : Bool :=
  isPrefixCI (chars "scope") s &&
    (match s.drop 5 with
     | [] => true
     | d :: _ => !(isWordChar d))

/-- Optional double-quoted value group of the directive regex; returns the
matched slice including the equals sign and both quotes, or nothing.  The
source regex has no alternative for single-quoted values here. -/
def tryQuotedValue (s : Str) : Str :=
  if (['=', '"'] : Str).isPrefixOf s then
    let rest := s.drop 2
    let v := rest.takeWhile (fun c => c != '"')
    if v.length < rest.length then ['=', '"'] ++ v ++ ['"'] else []
  else []

/-- Directive-attribute match attempt at one position: optional whitespace,
the two-character directive prefix (case-insensitive), the negative lookahead
excluding the scope key, a nonempty run of name characters, an optional
colon-modifier, and an optional double-quoted value.  Returns the matched
slice, a prefix of the input. -/
def tryDirectiveAt (s : Str) : Option Str :=
  let w := s.takeWhile isWs
  match s.drop w.length with
  | c1 :: c2 :: r2 =>
    if lowerChar c1 == 'g' && c2 == '-' && !(scopeLookahead r2) then
      let name := r2.takeWhile isNameChar
      if name = [] then none
      else
        let r3 := r2.drop name.length
        let modPart : Str :=
          match r3 with
          | ':' :: r4 =>
            let m2 := r4.takeWhile isNameChar
            if m2 = [] then [] else ':' :: m2
          | _ => []
        let v := tryQuotedValue (r3.drop modPart.length)
        some (w ++ c1 :: c2 :: (name ++ modPart ++ v))
    else none
  | _ => none

/-- Worker for extractDirectives, collecting trimmed matches left to right;
the skip counter carries the tail of a match so the recursion is structural. -/
def extractDirectivesGo : Nat → Str → List Str
  | _, [] => []
  | Nat.succ k, _ :: rest => extractDirectivesGo k rest
  | 0, c :: rest =>
    match tryDirectiveAt (c :: rest) with
    | some m => trimStr m :: extractDirectivesGo (m.length - 1) rest
    | none => extractDirectivesGo 0 rest

/-- Middleware extraction of directive attributes from the body attribute
text: every trimmed match of the global directive regex, in order.  The
middleware discards the stripped string (the replace result is not stored),
so only the list of matches is produced. -/
def extractDirectives (s : Str) : List Str := extractDirectivesGo 0 s

/-- Template-strip match attempt at one position: optional whitespace then a
template attribute with a double-quoted or else single-quoted value (the
template key is matched case-sensitively here). -/
def tryTemplateMatchAt (s : Str) : Option Str :=
  let w := s.takeWhile isWs
  let r := s.drop w.length
  if (chars "g-template" ++ ['=', '"']).isPrefixOf r then
    let rest := r.drop 12
    let v := rest.takeWhile (fun c => c != '"')
    if v.length < rest.length then
      some (w ++ chars "g-template" ++ '=' :: '"' :: (v ++ ['"']))
    else none
  else if (chars "g-template" ++ ['=', Char.ofNat 39]).isPrefixOf r then
    let rest := r.drop 12
    let v := rest.takeWhile (fun c => c != Char.ofNat 39)
    if v.length < rest.length then
      some (w ++ chars "g-template" ++ '=' :: Char.ofNat 39 :: (v ++ [Char.ofNat 39]))
    else none
  else none

/-- Worker for stripTemplateAttr with a structural skip counter. -/
def stripTemplateGo : Nat → Str → Str
  | _, [] => []
  | Nat.succ k, _ :: rest => stripTemplateGo k rest
  | 0, c :: rest =>
    match tryTemplateMatchAt (c :: rest) with
    | some m => stripTemplateGo (m.length - 1) rest
    | none => c :: stripTemplateGo 0 rest

/-- Middleware computation of the final body attribute text: the global
replacement deleting every template-attribute match. -/
def stripTemplateAttr (s : Str) : Str := stripTemplateGo 0 s

/-- Digit value of an ASCII digit character. -/
def digitVal (c : Char) : Nat := c.toNat - 48

/-- Capture group lookup for the replacement substitution, one-based. -/
def capVal (caps : List (Option Str)) (n : Nat) : Str :=
  match caps.get? (n - 1) with
  | some (some s) => s
  | _ => []

/-- Parse of one dollar escape: given the text after a dollar, the emitted
expansion and how many following characters the escape consumed.  Inputs are
the matched slice, the text before the match, the text after the match and
the capture list.  The source regexes have no named groups, so a dollar
followed by an angle bracket stays literal (consumed count zero). -/
def dollarParse (m b a : Str) (caps : List (Option Str)) : Str → (Str × Nat)
  | [] => (['$'], 0)
  | c2 :: r2 =>
    if c2 = '$' then (['$'], 1)
    else if c2 = '&' then (m, 1)
    else if c2 = Char.ofNat 96 then (b, 1)
    else if c2 = Char.ofNat 39 then (a, 1)
    else if c2.isDigit then
      match r2 with
      | c3 :: _ =>
        if c3.isDigit then
          if 1 ≤ 10 * digitVal c2 + digitVal c3 ∧
              10 * digitVal c2 + digitVal c3 ≤ caps.length then
            (capVal caps (10 * digitVal c2 + digitVal c3), 2)
          else if 1 ≤ digitVal c2 ∧ digitVal c2 ≤ caps.length then
            (capVal caps (digitVal c2), 1)
          else (['$'], 0)
        else if 1 ≤ digitVal c2 ∧ digitVal c2 ≤ caps.length then
          (capVal caps (digitVal c2), 1)
        else (['$'], 0)
      | [] =>
        if 1 ≤ digitVal c2 ∧ digitVal c2 ≤ caps.length then
          (capVal caps (digitVal c2), 1)
        else (['$'], 0)
    else (['$'], 0)

/-- Worker for jsSubstitution with a structural skip counter. -/
def jsSubstGo (m b a : Str) (caps : List (Option Str)) : Nat → Str → Str
  | _, [] => []
  | Nat.succ k, _ :: rest => jsSubstGo m b a caps k rest
  | 0, c :: rest =>
    if c = '$' then
      (dollarParse m b a caps rest).1 ++ jsSubstGo m b a caps (dollarParse m b a caps rest).2 rest
    else c :: jsSubstGo m b a caps 0 rest

/-- JS GetSubstitution: expansion of dollar escapes in a replacement string. -/
def jsSubstitution (m b a : Str) (caps : List (Option Str)) (repl : Str) : Str :=
  jsSubstGo m b a caps 0 repl

/-- Scope: a JS object as an association list; lookup takes the first entry. -/
abbrev Scope (V : Type) := List (String × V)

/-- Lookup in a scope. -/
def Scope.get {V : Type} (s : Scope V) (k : String) : Option V :=
  (s.find? (fun p => p.1 == k)).map Prod.snd

/-- JS object spread of two objects: base keys keep their order and take the
overriding value from ext when present; new keys of ext follow. -/
def mergeScope {V : Type} (base ext : Scope V) : Scope V :=
  base.map (fun p =>
    (p.1, match ext.find? (fun q => q.1 == p.1) with
          | some q => q.2
          | none => p.2)) ++
  ext.filter (fun q => !(base.any (fun p => p.1 == q.1)))

/-- Worker locating the first occurrence of a literal pattern, splitting the
input into the part before and the part after the match. -/
def findSubstrSplitAux (pat : Str) (acc : Str) : Str → Option (Str × Str)
  | [] => if pat = [] then some (acc.reverse, []) else none
  | c :: rest =>
    if pat.isPrefixOf (c :: rest) then some (acc.reverse, (c :: rest).drop pat.length)
    else findSubstrSplitAux pat (c :: acc) rest

/-- Split around the first occurrence of a literal pattern. -/
def findSubstrSplit (pat s : Str) : Option (Str × Str) := findSubstrSplitAux pat [] s

/-- Lazy state-script match of the post-build variant: the literal script open
tag for the embedded state, with the minimal content up to the first closing
script tag. -/
def goniaStateMatch (html : Str) : Option Str :=
  match findSubstrSplit (chars "<script id=\"gonia-state\" type=\"application/json\">") html with
  | some (_, rest) =>
    match findSubstrSplit (chars "</script>") rest with
    | some (content, _) => some content
    | none => none
  | none => none

/-- Base state of the post-build variant: the integration state option merged
with the embedded state script when present and parseable; a parse failure is
caught and keeps the prior state. -/
def idxBaseState {V : Type} (jsonParse : Str → Option (Scope V)) (optState : Scope V)
    (html : Str) : Scope V :=
  match goniaStateMatch html with
  | some raw =>
    match jsonParse raw with
    | some m => mergeScope optState m
    | none => optState
  | none => optState

/-- Scope extraction of the post-build variant from the body attribute text:
a present, nonempty scope value is entity-decoded and parsed; on success the
parsed object is spread over the base state, otherwise the base state is
kept.  The emptiness test models the JS truthiness test on the value. -/
def extractScopeState {V : Type} (jsonParse : Str → Option (Scope V)) (base : Scope V)
    (attrs : Str) : Scope V :=
  match attrValueMatch (chars "g-scope") attrs with
  | some v =>
    if v = [] then base
    else
      match jsonParse (decodeHtmlEntities v) with
      | some m => mergeScope base m
      | none => base
  | none => base

/-- Scope extraction of the middleware variant: same match and decode, with an
empty object as base and as the fallback kept by the catch. -/
def mwScopeState {V : Type} (jsonParse : Str → Option (Scope V)) (attrs : Str) : Scope V :=
  match attrValueMatch (chars "g-scope") attrs with
  | some v => if v = [] then [] else (jsonParse (decodeHtmlEntities v)).getD []
  | none => []

/-- Slot-placeholder match attempt for the self-closing alternative. -/
def trySelfSlot (s : Str) : Option (Str × Str) :=
  if (chars "<slot").isPrefixOf s then
    let w := (s.drop 5).takeWhile isWs
    let r := (s.drop 5).drop w.length
    if (chars "/>").isPrefixOf r then some (chars "<slot" ++ w ++ chars "/>", r.drop 2)
    else none
  else none

/-- Worker locating the first slot placeholder, paired-empty alternative
first, returning the split before, matched, after. -/
def slotFindAux (acc : Str) : Str → Option (Str × Str × Str)
  | [] => none
  | c :: rest =>
    if (chars "<slot></slot>").isPrefixOf (c :: rest) then
      some (acc.reverse, chars "<slot></slot>", (c :: rest).drop 13)
    else
      match trySelfSlot (c :: rest) with
      | some (m, after) => some (acc.reverse, m, after)
      | none => slotFindAux (c :: acc) rest

/-- First match of the slot-placeholder regex. -/
def slotFind (s : Str) : Option (Str × Str × Str) := slotFindAux [] s

/-- Template application of the post-build variant: JS String.replace of the
first slot placeholder by the body content, with the replacement string
subject to dollar-escape substitution; without a placeholder the template
text is returned unchanged. -/
def slotReplace (tmpl content : Str) : Str :=
  match slotFind tmpl with
  | some (b, m, a) => b ++ jsSubstitution m b a [] content ++ a
  | none => tmpl

/-- Content selection of the post-build variant: a present, nonempty template
name is resolved to a file under the templates directory; a read failure is
caught and keeps the body content; on success the slot replacement is
applied.  The node path join is modelled as slash-separated concatenation. -/
def contentToProcess (readFileFn : Str → Option Str) (rootDir templatesDir : Str)
    (attrs content : Str) : Str :=
  match attrValueMatch (chars "g-template") attrs with
  | some name =>
    if name = [] then content
    else
      match readFileFn (rootDir ++ '/' :: templatesDir ++ '/' :: name ++ chars ".html") with
      | some tmpl => slotReplace tmpl content
      | none => content
  | none => content

/-- Post-build variant of processHtmlString from src/index.ts.  The final
document reassembly applies the body regex again; it finds the same match, so
the substitution is expressed over the recorded decomposition, with the
original matched slice and both capture groups available to dollar escapes. -/
def idxProcessHtmlString {V : Type} (render : Str → Scope V → Except String Str)
    (jsonParse : Str → Option (Scope V)) (readFileFn : Str → Option Str)
    (optState : Scope V) (templatesDir rootDir : Str) (html : Str) : Except String Str :=
  let state1 := idxBaseState jsonParse optState html
  if isFullDocument html then
    match matchBody html with
    | some mb =>
      let state2 := extractScopeState jsonParse state1 mb.attrs
      let ctp := contentToProcess readFileFn rootDir templatesDir mb.attrs mb.content
      match render ctp state2 with
      | Except.ok rendered =>
        Except.ok (mb.pre ++
          jsSubstitution (mb.openTag ++ mb.attrs ++ '>' :: (mb.content ++ mb.closeTag))
            mb.pre mb.post [some mb.attrs, some mb.content]
            (chars "<body" ++ mb.attrs ++ '>' :: (rendered ++ chars "</body>")) ++
          mb.post)
      | Except.error e => Except.error e
    | none => Except.ok html
  else
    render html state1

/-- Post-build per-file pass processHtmlFile from src/index.ts: the result
some content models a write of that content, none models no write.  The
initial file read is the given html parameter. -/
def idxProcessHtmlFile {V : Type} (render : Str → Scope V → Except String Str)
    (jsonParse : Str → Option (Scope V)) (readFileFn : Str → Option Str)
    (optState : Scope V) (templatesDir rootDir : Str) (html : Str) :
    Except String (Option Str) :=
  match idxProcessHtmlString render jsonParse readFileFn optState templatesDir rootDir html with
  | Except.ok rendered => Except.ok (if rendered = html then none else some rendered)
  | Except.error e => Except.error e

/-- Anchored unwrap regex of the middleware: the whole rendered string must be
one div element; on a match the inner content is kept, otherwise the rendered
string is used as is (decided by the caller). -/
def unwrapDiv (s : Str) : Option Str :=
  if (chars "<div").isPrefixOf s then
    let rest := s.drop 4
    match rest.dropWhile (fun c => c != '>') with
    | '>' :: inner1 =>
      if (chars "</div>").isSuffixOf inner1 then some (inner1.take (inner1.length - 6))
      else none
    | _ => none
  else none

/-- Wrapper construction of the middleware: when directive attributes were
extracted they are carried on a synthetic div around the content, otherwise
the content is passed through bare. -/
def mwWrapper (dirs : List Str) (content : Str) : Str :=
  if dirs = [] then content
  else chars "<div " ++ List.intercalate [' '] dirs ++ '>' :: (content ++ chars "</div>")

/-- Unwrap decision of the middleware: when a wrapper was added and the
anchored unwrap regex matches the rendered output, the inner content is used,
otherwise the rendered output as a whole. -/
def mwFinalContent (dirs : List Str) (rendered : Str) : Str :=
  if dirs = [] then rendered
  else
    match unwrapDiv rendered with
    | some inner => inner
    | none => rendered

/-- Middleware variant of processHtmlString.  Fragments and documents without
a body match pass through; otherwise the scope is extracted, the directive
attributes are collected and carried on a synthetic div wrapper around the
body content, the renderer runs, the wrapper is unwrapped when one was added,
and the document is reassembled with the template attribute stripped from the
body attribute text. -/
def mwProcessHtmlString {V : Type} (render : Str → Scope V → Except String Str)
    (jsonParse : Str → Option (Scope V)) (html : Str) : Except String Str :=
  if isFullDocument html then
    match matchBody html with
    | some mb =>
      let state := mwScopeState jsonParse mb.attrs
      let dirs := extractDirectives mb.attrs
      match render (mwWrapper dirs mb.content) state with
      | Except.ok rendered =>
        let finalContent := mwFinalContent dirs rendered
        Except.ok (mb.pre ++
          jsSubstitution (mb.openTag ++ mb.attrs ++ '>' :: (mb.content ++ mb.closeTag))
            mb.pre mb.post [some mb.attrs, some mb.content]
            (chars "<body" ++ stripTemplateAttr mb.attrs ++ '>' ::
              (finalContent ++ chars "</body>")) ++
          mb.post)
      | Except.error e => Except.error e
    | none => Except.ok html
  else Except.ok html

/-- Middleware request handler onRequest, reduced to the response body: a
response that is not html, or whose body has no directive marker, passes
through; otherwise the processing runs under the try/catch that serves the
original body on any error.  Header bookkeeping and the registry singleton
carry no body-relevant state and are elided. -/
def mwOnRequest {V : Type} (render : Str → Scope V → Except String Str)
    (jsonParse : Str → Option (Scope V)) (contentTypeIsHtml : Bool) (html : Str) : Str :=
  if !contentTypeIsHtml then html
  else if !(containsSubstr html (chars "g-")) then html
  else
    match mwProcessHtmlString render jsonParse html with
    | Except.ok processed => processed
    | Except.error _ => html

/-- Single-quote character, kept out of string literals. -/
def sqc : Char := Char.ofNat 39

/-- Renderer fixture returning its input unchanged. -/
def okRender : Str → Scope Nat → Except String Str := fun s _ => Except.ok s

/-- Renderer fixture returning a fixed output. -/
def constRender (r : Str) : Str → Scope Nat → Except String Str := fun _ _ => Except.ok r

/-- Renderer fixture that always throws. -/
def errRender : Str → Scope Nat → Except String Str := fun _ _ => Except.error "boom"

/-- Parser fixture that always fails. -/
def noParse : Str → Option (Scope Nat) := fun _ => none

/-- Parser fixture accepting exactly the payload S. -/
def parseS : Str → Option (Scope Nat) := fun v => if v = chars "S" then some [("k", 2)] else none

/-- Filesystem fixture with no files. -/
def noFile : Str → Option Str := fun _ => none

/-- Filesystem fixture with one template file under the directory t of root r. -/
def oneFile (tmpl : Str) : Str → Option Str :=
  fun p => if p = chars "r/t/base.html" then some tmpl else none

/-- Body attribute text with a single-quoted directive value, built without
quote characters in string literals. -/
def singleQuotedAttr : Str := chars " g-text=" ++ [sqc, 'y', sqc]

/-
Helper lemmas.
-/

theorem jsSubstGo_no_dollar (m b a : Str) (caps : List (Option Str)) :
    ∀ s : Str, '$' ∉ s → jsSubstGo m b a caps 0 s = s := by
  intro s
  induction s with
  | nil => intro _; rfl
  | cons c rest ih =>
    intro h
    have hc : ¬ c = '$' := fun hc => h (hc ▸ List.mem_cons_self c rest)
    have hr : '$' ∉ rest := fun hm => h (List.mem_cons_of_mem c hm)
    simp only [jsSubstGo, if_neg hc, ih hr]

theorem jsSubstitution_no_dollar (m b a : Str) (caps : List (Option Str)) (repl : Str)
    (h : '$' ∉ repl) : jsSubstitution m b a caps repl = repl :=
  jsSubstGo_no_dollar m b a caps repl h

theorem replaceAllGo_not_contains (pat rep : Str) :
    ∀ s : Str, containsSubstr s pat = false → replaceAllGo pat rep 0 s = s := by
  intro s
  induction s with
  | nil => intro _; rfl
  | cons c rest ih =>
    intro h
    simp only [containsSubstr, Bool.or_eq_false_iff] at h
    simp only [replaceAllGo, if_neg (by simp [h.1] : ¬ pat.isPrefixOf (c :: rest) = true), ih h.2]

theorem replaceAll_not_contains (pat rep s : Str) (h : containsSubstr s pat = false) :
    replaceAll pat rep s = s :=
  replaceAllGo_not_contains pat rep s h

theorem find?_filter_of_imp {α : Type} (p g : α → Bool) :
    ∀ l : List α, (∀ x, p x = true → g x = true) → (l.filter g).find? p = l.find? p := by
  intro l h
  induction l with
  | nil => rfl
  | cons x xs ih =>
    cases hg : g x with
    | false =>
      have hp : p x = false := by
        cases hp : p x
        · rfl
        · rw [h x hp] at hg; cases hg
      rw [List.filter_cons, if_neg (by simp [hg]), List.find?_cons_of_neg _ (by simp [hp]), ih]
    | true =>
      rw [List.filter_cons, if_pos (by simp [hg])]
      cases hp : p x with
      | false =>
        rw [List.find?_cons_of_neg _ (by simp [hp]), List.find?_cons_of_neg _ (by simp [hp]), ih]
      | true =>
        rw [List.find?_cons_of_pos _ hp, List.find?_cons_of_pos _ hp]

theorem mergeScope_get {V : Type} (base ext : Scope V) (k : String) :
    Scope.get (mergeScope base ext) k = (Scope.get ext k).or (Scope.get base k) := by
  unfold Scope.get mergeScope
  rw [List.find?_append, List.find?_map]
  have hcomp :
      ((fun p : String × V => p.1 == k) ∘ fun p : String × V =>
        (p.1, match ext.find? (fun q => q.1 == p.1) with
              | some q => q.2
              | none => p.2)) = fun p : String × V => p.1 == k := rfl
  rw [hcomp]
  cases hb : base.find? (fun p : String × V => p.1 == k) with
  | some p0 =>
    have hbeq := List.find?_some hb
    have hk : p0.1 = k := eq_of_beq hbeq
    cases he : ext.find? (fun q : String × V => q.1 == k) with
    | some q0 => simp [Option.or, hk, he]
    | none => simp [Option.or, hk, he]
  | none =>
    have hfilter :
        (List.filter (fun q : String × V => !(base.any fun p => p.1 == q.1)) ext).find?
            (fun p : String × V => p.1 == k) =
          ext.find? (fun p : String × V => p.1 == k) := by
      apply find?_filter_of_imp
      intro x hx
      have hk : x.1 = k := eq_of_beq hx
      have hany : base.any (fun p : String × V => p.1 == k) = false := by
        rw [List.any_eq_false]
        intro p hp
        intro hpk
        have := List.find?_eq_none.mp hb p hp
        exact this hpk
      simp [hk, hany]
    rw [hfilter]
    cases he : ext.find? (fun p : String × V => p.1 == k) with
    | some q0 => simp [Option.or]
    | none => simp [Option.or]

theorem isPrefixCI_map_lower :
    ∀ pat s : Str, isPrefixCI pat s = true →
      (s.take pat.length).map lowerChar = pat.map lowerChar := by
  intro pat
  induction pat with
  | nil => intro s _; rfl
  | cons p ps ih =>
    intro s h
    cases s with
    | nil => simp [isPrefixCI] at h
    | cons c cs =>
      simp only [isPrefixCI, Bool.and_eq_true] at h
      obtain ⟨h1, h2⟩ := h
      have hc : lowerChar c = lowerChar p := (eq_of_beq h1).symm
      simp [List.length_cons, List.take_succ_cons, hc, ih cs h2]

theorem splitLastCIAux_spec (pat : Str) :
    ∀ (s acc : Str) (best : Option (Str × Str × Str)) (b m a : Str),
      (∀ b0 m0 a0, best = some (b0, m0, a0) →
        b0 ++ m0 ++ a0 = acc.reverse ++ s ∧ m0.map lowerChar = pat.map lowerChar) →
      splitLastCIAux pat acc best s = some (b, m, a) →
      b ++ m ++ a = acc.reverse ++ s ∧ m.map lowerChar = pat.map lowerChar := by
  intro s
  induction s with
  | nil =>
    intro acc best b m a hbest h
    exact hbest b m a h
  | cons c rest ih =>
    intro acc best b m a hbest h
    simp only [splitLastCIAux] at h
    have hrearr : acc.reverse ++ c :: rest = (c :: acc).reverse ++ rest := by simp
    have hbest2 : ∀ b0 m0 a0,
        (if isPrefixCI pat (c :: rest) = true then
          some (acc.reverse, (c :: rest).take pat.length, (c :: rest).drop pat.length)
        else best) = some (b0, m0, a0) →
        b0 ++ m0 ++ a0 = (c :: acc).reverse ++ rest ∧
        m0.map lowerChar = pat.map lowerChar := by
      intro b0 m0 a0 hb0
      by_cases hp : isPrefixCI pat (c :: rest) = true
      · rw [if_pos hp] at hb0
        simp only [Option.some.injEq, Prod.mk.injEq] at hb0
        obtain ⟨e1, e2, e3⟩ := hb0
        constructor
        · rw [← e1, ← e2, ← e3, ← hrearr, List.append_assoc, List.take_append_drop]
        · rw [← e2]
          exact isPrefixCI_map_lower pat (c :: rest) hp
      · rw [if_neg hp] at hb0
        have hb1 := hbest b0 m0 a0 hb0
        exact ⟨hb1.1.trans hrearr, hb1.2⟩
    have hres := ih (c :: acc) _ b m a hbest2 h
    exact ⟨hres.1.trans hrearr.symm, hres.2⟩

theorem splitLastCI_spec (pat s b m a : Str) (h : splitLastCI pat s = some (b, m, a)) :
    b ++ m ++ a = s ∧ m.map lowerChar = pat.map lowerChar := by
  have hres := splitLastCIAux_spec pat s [] none b m a
    (by intro b0 m0 a0 h0; cases h0) h
  simpa using hres

theorem tryBodyAt_spec (s o a2 ct cl pt : Str)
    (h : tryBodyAt s = some (o, a2, ct, cl, pt)) :
    s = o ++ a2 ++ '>' :: (ct ++ cl ++ pt) ∧
    o.map lowerChar = chars "<body" ∧ cl.map lowerChar = chars "</body>" := by
  unfold tryBodyAt at h
  split at h
  case isFalse => cases h
  case isTrue hp =>
    dsimp only at h
    split at h
    case h_2 => cases h
    case h_1 after heq =>
      split at h
      case h_2 => cases h
      case h_1 content closeT post heq2 =>
        simp only [Option.some.injEq, Prod.mk.injEq] at h
        obtain ⟨e1, e2, e3, e4, e5⟩ := h
        have hsplit := splitLastCI_spec (chars "</body>") after content closeT post heq2
        refine ⟨?_, ?_, ?_⟩
        · rw [← e1, ← e2, ← e3, ← e4, ← e5]
          have hs5 : s = s.take 5 ++ s.drop 5 := (List.take_append_drop 5 s).symm
          have hdw : s.drop 5 =
              (s.drop 5).takeWhile (fun c => c != '>') ++ '>' :: after := by
            rw [← heq, List.takeWhile_append_dropWhile]
          rw [hsplit.1]
          conv_lhs => rw [hs5, hdw]
          simp [List.append_assoc]
        · rw [← e1]
          have hlow := isPrefixCI_map_lower (chars "<body") s hp
          have hlen : (chars "<body").length = 5 := rfl
          rw [hlen] at hlow
          rw [hlow]
          decide
        · rw [← e4, hsplit.2]
          decide

theorem matchBodyAux_spec :
    ∀ (s acc : Str) (mb : BodyMatch), matchBodyAux acc s = some mb →
      acc.reverse ++ s =
        mb.pre ++ mb.openTag ++ mb.attrs ++ '>' :: (mb.content ++ mb.closeTag ++ mb.post) ∧
      mb.openTag.map lowerChar = chars "<body" ∧
      mb.closeTag.map lowerChar = chars "</body>" := by
  intro s
  induction s with
  | nil => intro acc mb h; cases h
  | cons c rest ih =>
    intro acc mb h
    simp only [matchBodyAux] at h
    cases htry : tryBodyAt (c :: rest) with
    | some tup =>
      obtain ⟨o, a2, ct, cl, pt⟩ := tup
      rw [htry] at h
      simp only [Option.some.injEq] at h
      have hspec := tryBodyAt_spec (c :: rest) o a2 ct cl pt htry
      subst h
      refine ⟨?_, hspec.2.1, hspec.2.2⟩
      rw [hspec.1]
      simp [List.append_assoc]
    | none =>
      rw [htry] at h
      have hres := ih (c :: acc) mb h
      have hrearr : acc.reverse ++ c :: rest = (c :: acc).reverse ++ rest := by simp
      exact ⟨hrearr.trans hres.1, hres.2⟩

theorem matchBody_decomp (s : Str) (mb : BodyMatch) (h : matchBody s = some mb) :
    s = mb.pre ++ mb.openTag ++ mb.attrs ++ '>' :: (mb.content ++ mb.closeTag ++ mb.post) ∧
    mb.openTag.map lowerChar = chars "<body" ∧
    mb.closeTag.map lowerChar = chars "</body>" := by
  have hres := matchBodyAux_spec s [] mb h
  simpa using hres

theorem containsSubstr_of_isPrefixOf_drop (pat : Str) (hne : pat ≠ []) :
    ∀ (s : Str) (n : Nat), pat.isPrefixOf (s.drop n) = true → containsSubstr s pat = true := by
  intro s
  induction s with
  | nil =>
    intro n h
    rw [List.drop_nil] at h
    cases pat with
    | nil => exact absurd rfl hne
    | cons p ps => simp [List.isPrefixOf] at h
  | cons c rest ih =>
    intro n h
    cases n with
    | zero =>
      simp only [List.drop_zero] at h
      simp [containsSubstr, h]
    | succ n2 =>
      simp only [List.drop_succ_cons] at h
      simp [containsSubstr, ih n2 h]

theorem isPrefixOf_of_append_isPrefixOf (a b r : Str)
    (h : (a ++ b).isPrefixOf r = true) : a.isPrefixOf r = true := by
  rw [List.isPrefixOf_iff_prefix] at h ⊢
  exact (List.prefix_append a b).trans h

theorem tryTemplateMatchAt_contains (s m : Str) (h : tryTemplateMatchAt s = some m) :
    containsSubstr s (chars "g-template") = true := by
  unfold tryTemplateMatchAt at h
  dsimp only at h
  split at h
  next hp =>
    exact containsSubstr_of_isPrefixOf_drop (chars "g-template") (by decide) s _
      (isPrefixOf_of_append_isPrefixOf _ _ _ hp)
  next hp =>
    split at h
    next hp2 =>
      exact containsSubstr_of_isPrefixOf_drop (chars "g-template") (by decide) s _
        (isPrefixOf_of_append_isPrefixOf _ _ _ hp2)
    next hp2 => cases h

theorem stripTemplateGo_id :
    ∀ s : Str, containsSubstr s (chars "g-template") = false → stripTemplateGo 0 s = s := by
  intro s
  induction s with
  | nil => intro _; rfl
  | cons c rest ih =>
    intro h
    have hcontains : containsSubstr (c :: rest) (chars "g-template") = false := h
    simp only [containsSubstr, Bool.or_eq_false_iff] at h
    cases htry : tryTemplateMatchAt (c :: rest) with
    | some m =>
      have hcontra := tryTemplateMatchAt_contains (c :: rest) m htry
      rw [hcontra] at hcontains
      cases hcontains
    | none =>
      simp only [stripTemplateGo, htry]
      rw [ih h.2]

theorem stripTemplateAttr_id (s : Str)
    (h : containsSubstr s (chars "g-template") = false) : stripTemplateAttr s = s :=
  stripTemplateGo_id s h

theorem stripTemplateGo_subset :
    ∀ (s : Str) (k : Nat) (c : Char), c ∈ stripTemplateGo k s → c ∈ s := by
  intro s
  induction s with
  | nil =>
    intro k c h
    cases k <;> simp [stripTemplateGo] at h
  | cons x rest ih =>
    intro k c h
    cases k with
    | succ k2 =>
      simp only [stripTemplateGo] at h
      exact List.mem_cons_of_mem x (ih k2 c h)
    | zero =>
      simp only [stripTemplateGo] at h
      cases htry : tryTemplateMatchAt (x :: rest) with
      | some m =>
        rw [htry] at h
        exact List.mem_cons_of_mem x (ih (m.length - 1) c h)
      | none =>
        rw [htry] at h
        rcases List.mem_cons.mp h with h1 | h1
        · subst h1; exact List.mem_cons_self c rest
        · exact List.mem_cons_of_mem x (ih 0 c h1)

theorem unwrapDiv_subset (s inner : Str) (h : unwrapDiv s = some inner) :
    ∀ c : Char, c ∈ inner → c ∈ s := by
  intro c hc
  unfold unwrapDiv at h
  split at h
  case isFalse => cases h
  case isTrue hp =>
    dsimp only at h
    split at h
    next inner1 heq =>
      split at h
      case isFalse => cases h
      case isTrue hsuf =>
        simp only [Option.some.injEq] at h
        subst h
        have h1 : c ∈ inner1 := List.mem_of_mem_take hc
        have h2 : c ∈ '>' :: inner1 := List.mem_cons_of_mem _ h1
        rw [← heq] at h2
        have h3 : c ∈ s.drop 4 := List.dropWhile_subset _ h2
        exact List.drop_subset 4 s h3
    next => cases h

theorem mwFinalContent_no_dollar (dirs : List Str) (r : Str) (h : '$' ∉ r) :
    '$' ∉ mwFinalContent dirs r := by
  unfold mwFinalContent
  by_cases hd : dirs = []
  · rw [if_pos hd]; exact h
  · rw [if_neg hd]
    cases hu : unwrapDiv r with
    | some inner =>
      simp only [hu]
      intro hc
      exact h (unwrapDiv_subset r inner hu '$' hc)
    | none => simp only [hu]; exact h

theorem no_dollar_replacement (attrs fc : Str) (h1 : '$' ∉ attrs) (h2 : '$' ∉ fc) :
    '$' ∉ chars "<body" ++ attrs ++ '>' :: (fc ++ chars "</body>") := by
  intro hmem
  simp only [List.mem_append, List.mem_cons] at hmem
  rcases hmem with (h | h) | h | h | h
  · exact absurd h (by decide)
  · exact h1 h
  · exact absurd h (by decide)
  · exact h2 h
  · exact absurd h (by decide)

theorem idxProcessHtmlString_full {V : Type} (render : Str → Scope V → Except String Str)
    (jsonParse : Str → Option (Scope V)) (readFileFn : Str → Option Str)
    (optState : Scope V) (templatesDir rootDir : Str) (html : Str) (mb : BodyMatch) (r : Str)
    (hfull : isFullDocument html = true) (hmb : matchBody html = some mb)
    (hr : render (contentToProcess readFileFn rootDir templatesDir mb.attrs mb.content)
        (extractScopeState jsonParse (idxBaseState jsonParse optState html) mb.attrs) =
      Except.ok r) :
    idxProcessHtmlString render jsonParse readFileFn optState templatesDir rootDir html =
      Except.ok (mb.pre ++
        jsSubstitution (mb.openTag ++ mb.attrs ++ '>' :: (mb.content ++ mb.closeTag))
          mb.pre mb.post [some mb.attrs, some mb.content]
          (chars "<body" ++ mb.attrs ++ '>' :: (r ++ chars "</body>")) ++ mb.post) := by
  unfold idxProcessHtmlString
  simp only [hfull, hmb, hr, if_true]

theorem idxProcessHtmlString_full_plain {V : Type} (render : Str → Scope V → Except String Str)
    (jsonParse : Str → Option (Scope V)) (readFileFn : Str → Option Str)
    (optState : Scope V) (templatesDir rootDir : Str) (html : Str) (mb : BodyMatch) (r : Str)
    (hfull : isFullDocument html = true) (hmb : matchBody html = some mb)
    (hr : render (contentToProcess readFileFn rootDir templatesDir mb.attrs mb.content)
        (extractScopeState jsonParse (idxBaseState jsonParse optState html) mb.attrs) =
      Except.ok r)
    (hA : '$' ∉ mb.attrs) (hR : '$' ∉ r) :
    idxProcessHtmlString render jsonParse readFileFn optState templatesDir rootDir html =
      Except.ok (mb.pre ++
        (chars "<body" ++ mb.attrs ++ '>' :: (r ++ chars "</body>")) ++ mb.post) := by
  rw [idxProcessHtmlString_full render jsonParse readFileFn optState templatesDir rootDir
      html mb r hfull hmb hr,
    jsSubstitution_no_dollar _ _ _ _ _ (no_dollar_replacement mb.attrs r hA hR)]

theorem mwProcessHtmlString_full {V : Type} (render : Str → Scope V → Except String Str)
    (jsonParse : Str → Option (Scope V)) (html : Str) (mb : BodyMatch) (r : Str)
    (hfull : isFullDocument html = true) (hmb : matchBody html = some mb)
    (hr : render (mwWrapper (extractDirectives mb.attrs) mb.content)
        (mwScopeState jsonParse mb.attrs) = Except.ok r) :
    mwProcessHtmlString render jsonParse html =
      Except.ok (mb.pre ++
        jsSubstitution (mb.openTag ++ mb.attrs ++ '>' :: (mb.content ++ mb.closeTag))
          mb.pre mb.post [some mb.attrs, some mb.content]
          (chars "<body" ++ stripTemplateAttr mb.attrs ++ '>' ::
            (mwFinalContent (extractDirectives mb.attrs) r ++ chars "</body>")) ++ mb.post) := by
  unfold mwProcessHtmlString
  simp only [hfull, hmb, hr, if_true]

theorem mwProcessHtmlString_full_plain {V : Type} (render : Str → Scope V → Except String Str)
    (jsonParse : Str → Option (Scope V)) (html : Str) (mb : BodyMatch) (r : Str)
    (hfull : isFullDocument html = true) (hmb : matchBody html = some mb)
    (hr : render (mwWrapper (extractDirectives mb.attrs) mb.content)
        (mwScopeState jsonParse mb.attrs) = Except.ok r)
    (hA : '$' ∉ mb.attrs) (hR : '$' ∉ r) :
    mwProcessHtmlString render jsonParse html =
      Except.ok (mb.pre ++
        (chars "<body" ++ stripTemplateAttr mb.attrs ++ '>' ::
          (mwFinalContent (extractDirectives mb.attrs) r ++ chars "</body>")) ++ mb.post) := by
  have hA2 : '$' ∉ stripTemplateAttr mb.attrs := fun hm => hA (stripTemplateGo_subset mb.attrs 0 '$' hm)
  have hR2 : '$' ∉ mwFinalContent (extractDirectives mb.attrs) r :=
    mwFinalContent_no_dollar (extractDirectives mb.attrs) r hR
  rw [mwProcessHtmlString_full render jsonParse html mb r hfull hmb hr,
    jsSubstitution_no_dollar _ _ _ _ _
      (no_dollar_replacement (stripTemplateAttr mb.attrs)
        (mwFinalContent (extractDirectives mb.attrs) r) hA2 hR2)]

theorem idxProcessHtmlString_fragment {V : Type} (render : Str → Scope V → Except String Str)
    (jsonParse : Str → Option (Scope V)) (readFileFn : Str → Option Str)
    (optState : Scope V) (templatesDir rootDir : Str) (html : Str)
    (hfrag : isFullDocument html = false) :
    idxProcessHtmlString render jsonParse readFileFn optState templatesDir rootDir html =
      render html (idxBaseState jsonParse optState html) := by
  unfold idxProcessHtmlString
  simp [hfrag]

theorem mwProcessHtmlString_fragment {V : Type} (render : Str → Scope V → Except String Str)
    (jsonParse : Str → Option (Scope V)) (html : Str)
    (hfrag : isFullDocument html = false) :
    mwProcessHtmlString render jsonParse html = Except.ok html := by
  unfold mwProcessHtmlString
  simp [hfrag]

theorem mwProcessHtmlString_err {V : Type} (render : Str → Scope V → Except String Str)
    (jsonParse : Str → Option (Scope V)) (e : String)
    (herr : ∀ s st, render s st = Except.error e) (html : Str) :
    mwProcessHtmlString render jsonParse html = Except.ok html ∨
    mwProcessHtmlString render jsonParse html = Except.error e := by
  unfold mwProcessHtmlString
  by_cases hf : isFullDocument html = true
  · cases hmb : matchBody html with
    | some mb => right; simp [hf, hmb, herr]
    | none => left; simp [hf, hmb]
  · left
    simp [hf]

theorem idxProcessHtmlString_err {V : Type} (render : Str → Scope V → Except String Str)
    (jsonParse : Str → Option (Scope V)) (readFileFn : Str → Option Str)
    (optState : Scope V) (templatesDir rootDir : Str) (e : String)
    (herr : ∀ s st, render s st = Except.error e) (html : Str)
    (h : isFullDocument html = false ∨ (matchBody html).isSome = true) :
    idxProcessHtmlString render jsonParse readFileFn optState templatesDir rootDir html =
      Except.error e := by
  unfold idxProcessHtmlString
  rcases h with hf | hm
  · simp [hf, herr]
  · obtain ⟨mb, hmb⟩ := Option.isSome_iff_exists.mp hm
    by_cases hf : isFullDocument html = true
    · simp [hf, hmb, herr]
    · simp [hf, herr]

/-
Claim theorems.
-/

/-- Claim C4 (confirmed): the entity decoder replaces exactly the seven
reference forms with their literal characters, with the ampersand decoded
last, so that the input ampersand-amp-semicolon-quot-semicolon decodes to the
literal text of the quot reference and not to a double-decoded quote; the
decoder is a pure total function. -/
theorem c4_entity_decoder :
    decodeHtmlEntities (chars "&quot;") = ['"'] ∧
    decodeHtmlEntities (chars "&#34;") = ['"'] ∧
    decodeHtmlEntities (chars "&#39;") = [Char.ofNat 39] ∧
    decodeHtmlEntities (chars "&apos;") = [Char.ofNat 39] ∧
    decodeHtmlEntities (chars "&lt;") = ['<'] ∧
    decodeHtmlEntities (chars "&gt;") = ['>'] ∧
    decodeHtmlEntities (chars "&amp;") = ['&'] ∧
    decodeHtmlEntities (chars "&amp;quot;") = chars "&quot;" ∧
    decodeHtmlEntities (chars "&amp;quot;") ≠ ['"'] := by
  refine ⟨rfl, rfl, rfl, rfl, rfl, rfl, rfl, rfl, by decide⟩

/-- Claim C10 (confirmed): on a string containing none of the seven reference
forms the entity decoder is the identity. -/
theorem c10_decoder_identity (s : Str)
    (h1 : containsSubstr s (chars "&quot;") = false)
    (h2 : containsSubstr s (chars "&#34;") = false)
    (h3 : containsSubstr s (chars "&#39;") = false)
    (h4 : containsSubstr s (chars "&apos;") = false)
    (h5 : containsSubstr s (chars "&lt;") = false)
    (h6 : containsSubstr s (chars "&gt;") = false)
    (h7 : containsSubstr s (chars "&amp;") = false) :
    decodeHtmlEntities s = s := by
  unfold decodeHtmlEntities
  rw [replaceAll_not_contains _ _ s h1, replaceAll_not_contains _ _ s h2,
    replaceAll_not_contains _ _ s h3, replaceAll_not_contains _ _ s h4,
    replaceAll_not_contains _ _ s h5, replaceAll_not_contains _ _ s h6,
    replaceAll_not_contains _ _ s h7]

/-- Claim C10 witness: a concrete reference-free string with bare ampersand
and angle characters is left unchanged. -/
theorem c10_witness : decodeHtmlEntities (chars "a & b < c") = chars "a & b < c" :=
  c10_decoder_identity (chars "a & b < c") (by decide) (by decide) (by decide)
    (by decide) (by decide) (by decide) (by decide)

/-- Claim C3 (code bug): the directive-attribute extraction regex matches the
directive prefix anywhere, also inside the longer unrelated attribute name
data-g-text, and it captures only double-quoted values, so a single-quoted
directive value is matched without its value; the third conjunct shows the
intended positive case for comparison. -/
theorem c3_extraction_flaws :
    extractDirectives (chars " data-g-text=\"x\"") = [chars "g-text=\"x\""] ∧
    extractDirectives singleQuotedAttr = [chars "g-text"] ∧
    extractDirectives (chars " g-text=\"count\" g-scope=\"S\" class=\"x\"") =
      [chars "g-text=\"count\""] :=
  ⟨rfl, rfl, rfl⟩

/-- Claim C1 counterexample: the post-build variant re-emits the body
attribute text unchanged, so the emitted attributes still carry the template
attribute, contradicting the claim that it is unconditionally stripped. -/
theorem c1_counterexample :
    idxProcessHtmlString okRender noParse noFile [] (chars "t") (chars "r")
        (chars "<html><body g-template=\"base\">x</body></html>") =
      Except.ok (chars "<html><body g-template=\"base\">x</body></html>") ∧
    (matchBody (chars "<html><body g-template=\"base\">x</body></html>")).map
        BodyMatch.attrs = some (chars " g-template=\"base\"") ∧
    containsSubstr (chars " g-template=\"base\"") (chars "g-template") = true :=
  ⟨rfl, rfl, by decide⟩

/-- Claim C1 (amended): only the dev-middleware variant strips the template
attribute from the emitted body attribute text, removing each quoted template
attribute occurrence and leaving attribute text without the template key (in
particular the scope attribute) unchanged; the post-build variant re-emits
the body attribute text unchanged, template attribute included (stated for
dollar-free attribute text and renderer output, where the replacement string
is spliced literally). -/
theorem c1_amended_strip_policy :
    (∀ attrs2 : Str, containsSubstr attrs2 (chars "g-template") = false →
      stripTemplateAttr attrs2 = attrs2) ∧
    stripTemplateAttr (chars " g-scope=\"S\" g-template=\"base\"") = chars " g-scope=\"S\"" ∧
    mwProcessHtmlString okRender noParse
        (chars "<html><body g-scope=\"S\" g-template=\"base\">x</body></html>") =
      Except.ok (chars "<html><body g-scope=\"S\">x</body></html>") ∧
    (∀ (html r : Str) (mb : BodyMatch), isFullDocument html = true →
      matchBody html = some mb → '$' ∉ mb.attrs → '$' ∉ r →
      idxProcessHtmlString (constRender r) noParse noFile [] (chars "t") (chars "r") html =
        Except.ok (mb.pre ++
          (chars "<body" ++ mb.attrs ++ '>' :: (r ++ chars "</body>")) ++ mb.post)) := by
  refine ⟨fun attrs2 h => stripTemplateAttr_id attrs2 h, rfl, rfl, ?_⟩
  intro html r mb hfull hmb hA hR
  exact idxProcessHtmlString_full_plain (constRender r) noParse noFile [] (chars "t")
    (chars "r") html mb r hfull hmb rfl hA hR

/-- Claim C1 witness: the post-build clause applied to a concrete document
whose body carries one ordinary attribute. -/
theorem c1_witness :
    idxProcessHtmlString (constRender (chars "R")) noParse noFile [] (chars "t") (chars "r")
        (chars "<html><body a=\"1\">x</body></html>") =
      Except.ok (chars "<html><body a=\"1\">R</body></html>") := by
  have h := c1_amended_strip_policy.2.2.2 (chars "<html><body a=\"1\">x</body></html>")
    (chars "R")
    ⟨chars "<html>", chars "<body", chars " a=\"1\"", chars "x", chars "</body>", chars "</html>"⟩
    (by decide) (by decide) (by decide) (by decide)
  exact h.trans rfl

/-- Claim C2 counterexample: in the post-build pass a renderer exception
propagates out of the per-file function, so the original document is not
emitted and the overall pass fails at the orchestrator. -/
theorem c2_counterexample :
    idxProcessHtmlFile errRender noParse noFile [] (chars "t") (chars "r")
      (chars "<html><body>x</body></html>") = Except.error "boom" := rfl

/-- Claim C2 (amended): the dev middleware catches a throwing renderer and
serves the original body for every request, while the post-build per-file
pass has no catch, so on every document that reaches the renderer (a fragment
or a full document with a body match) the exception propagates out. -/
theorem c2_amended_error_boundary {V : Type} (render : Str → Scope V → Except String Str)
    (jsonParse : Str → Option (Scope V)) (readFileFn : Str → Option Str)
    (optState : Scope V) (templatesDir rootDir : Str) (e : String)
    (herr : ∀ s st, render s st = Except.error e) :
    (∀ (ct : Bool) (html : Str), mwOnRequest render jsonParse ct html = html) ∧
    (∀ html : Str, isFullDocument html = false ∨ (matchBody html).isSome = true →
      idxProcessHtmlFile render jsonParse readFileFn optState templatesDir rootDir html =
        Except.error e) := by
  constructor
  · intro ct html
    unfold mwOnRequest
    by_cases h1 : (!ct) = true
    · rw [if_pos h1]
    · rw [if_neg h1]
      by_cases h2 : (!(containsSubstr html (chars "g-"))) = true
      · rw [if_pos h2]
      · rw [if_neg h2]
        rcases mwProcessHtmlString_err render jsonParse e herr html with hok | herr2
        · rw [hok]
        · rw [herr2]
  · intro html h
    unfold idxProcessHtmlFile
    rw [idxProcessHtmlString_err render jsonParse readFileFn optState templatesDir rootDir
      e herr html h]

/-- Claim C2 witness: the middleware clause at a concrete request whose body
carries a directive marker, with a renderer that always throws. -/
theorem c2_witness :
    mwOnRequest errRender noParse true (chars "<html><body g-x=\"1\">x</body></html>") =
      chars "<html><body g-x=\"1\">x</body></html>" :=
  (c2_amended_error_boundary errRender noParse noFile [] (chars "t") (chars "r") "boom"
    (fun _ _ => rfl)).1 true (chars "<html><body g-x=\"1\">x</body></html>")

/-- Claim C5 counterexample: an uppercase body tag is matched case
insensitively but re-emitted lowercase, so the output is not byte-identical
to the input outside the transformed body region as claimed for the
surrounding body tag name casing. -/
theorem c5_counterexample :
    idxProcessHtmlString okRender noParse noFile [] (chars "t") (chars "r")
        (chars "<html><BODY>x</BODY></html>") =
      Except.ok (chars "<html><body>x</body></html>") ∧
    chars "<html><body>x</body></html>" ≠ chars "<html><BODY>x</BODY></html>" :=
  ⟨rfl, by decide⟩

/-- Claim C5 (amended): for a matched body region the input decomposes as
prefix, matched body element, suffix; both pipeline variants emit exactly
that prefix and suffix unchanged around the transformed region, but re-emit
the body open and close tag names in lowercase regardless of the input
casing (the matched tags are only case-insensitively equal to lowercase);
attribute text that is not stripped is re-emitted unchanged provided it and
the renderer output contain no dollar replacement pattern. -/
theorem c5_amended_outside_region :
    ∀ (html r : Str) (mb : BodyMatch), isFullDocument html = true →
      matchBody html = some mb → '$' ∉ mb.attrs → '$' ∉ r →
      html = mb.pre ++
        (mb.openTag ++ mb.attrs ++ '>' :: (mb.content ++ mb.closeTag)) ++ mb.post ∧
      mb.openTag.map lowerChar = chars "<body" ∧
      mb.closeTag.map lowerChar = chars "</body>" ∧
      idxProcessHtmlString (constRender r) noParse noFile [] (chars "t") (chars "r") html =
        Except.ok (mb.pre ++
          (chars "<body" ++ mb.attrs ++ '>' :: (r ++ chars "</body>")) ++ mb.post) ∧
      (∃ fc : Str, mwProcessHtmlString (constRender r) noParse html =
        Except.ok (mb.pre ++
          (chars "<body" ++ stripTemplateAttr mb.attrs ++ '>' :: (fc ++ chars "</body>")) ++
          mb.post)) := by
  intro html r mb hfull hmb hA hR
  have hdec := matchBody_decomp html mb hmb
  refine ⟨?_, hdec.2.1, hdec.2.2, ?_, ?_⟩
  · rw [hdec.1]
    simp [List.append_assoc]
  · exact idxProcessHtmlString_full_plain (constRender r) noParse noFile [] (chars "t")
      (chars "r") html mb r hfull hmb rfl hA hR
  · exact ⟨mwFinalContent (extractDirectives mb.attrs) r,
      mwProcessHtmlString_full_plain (constRender r) noParse html mb r hfull hmb rfl hA hR⟩

/-- Claim C5 witness: the post-build clause applied to a concrete document
with an uppercase body tag, showing preserved prefix and suffix and the
lowercased re-emitted tags. -/
theorem c5_witness :
    idxProcessHtmlString (constRender (chars "R")) noParse noFile [] (chars "t") (chars "r")
        (chars "<html><BODY a=\"1\">x</BODY></html>") =
      Except.ok (chars "<html><body a=\"1\">R</body></html>") := by
  have h := (c5_amended_outside_region (chars "<html><BODY a=\"1\">x</BODY></html>")
    (chars "R")
    ⟨chars "<html>", chars "<BODY", chars " a=\"1\"", chars "x", chars "</BODY>", chars "</html>"⟩
    (by decide) (by decide) (by decide) (by decide)).2.2.2.1
  exact h.trans rfl

/-- Claim C6 (confirmed): scope extraction yields the base state when the
scope attribute is absent, keeps the prior state silently when the decoded
value fails to parse, and on success spreads the parsed object over the base
so that extracted keys override base keys of the same name; stated for the
post-build extraction (arbitrary base) and the middleware extraction (empty
base). -/
theorem c6_scope_extraction {V : Type} (jsonParse : Str → Option (Scope V)) (base : Scope V)
    (attrs2 : Str) :
    (attrValueMatch (chars "g-scope") attrs2 = none →
      extractScopeState jsonParse base attrs2 = base ∧
      mwScopeState jsonParse attrs2 = ([] : Scope V)) ∧
    (∀ v, attrValueMatch (chars "g-scope") attrs2 = some v → v ≠ [] →
      jsonParse (decodeHtmlEntities v) = none →
      extractScopeState jsonParse base attrs2 = base ∧
      mwScopeState jsonParse attrs2 = ([] : Scope V)) ∧
    (∀ v m, attrValueMatch (chars "g-scope") attrs2 = some v → v ≠ [] →
      jsonParse (decodeHtmlEntities v) = some m →
      extractScopeState jsonParse base attrs2 = mergeScope base m ∧
      mwScopeState jsonParse attrs2 = m) ∧
    (∀ (m : Scope V) (k : String),
      Scope.get (mergeScope base m) k = (Scope.get m k).or (Scope.get base k)) := by
  refine ⟨?_, ?_, ?_, fun m k => mergeScope_get base m k⟩
  · intro h
    constructor
    · unfold extractScopeState; simp [h]
    · unfold mwScopeState; simp [h]
  · intro v h hne hp
    constructor
    · unfold extractScopeState; simp [h, hne, hp]
    · unfold mwScopeState; simp [h, hne, hp]
  · intro v m h hne hp
    constructor
    · unfold extractScopeState; simp [h, hne, hp]
    · unfold mwScopeState; simp [h, hne, hp]

/-- Claim C6 witness: a concrete body attribute text with a parseable scope
value, merged over a base holding the same key. -/
theorem c6_witness :
    extractScopeState parseS [("k", 1)] (chars " g-scope=\"S\"") =
      mergeScope [("k", 1)] [("k", 2)] :=
  ((c6_scope_extraction parseS [("k", 1)] (chars " g-scope=\"S\"")).2.2.1 (chars "S")
    [("k", 2)] (by decide) (by decide) (by decide)).1

/-- Claim C7 counterexample: the slot substitution feeds the body content to
the replacement-string expansion of JS String.replace, so a content with a
dollar-ampersand sequence is not spliced verbatim: the matched placeholder is
re-inserted instead. -/
theorem c7_counterexample :
    slotReplace (chars "<main><slot></slot></main>") (chars "a$&b") =
      chars "<main>a<slot></slot>b</main>" ∧
    chars "<main>a<slot></slot>b</main>" ≠
      chars "<main>" ++ chars "a$&b" ++ chars "</main>" :=
  ⟨rfl, by decide⟩

/-- Claim C7 (amended): a missing template attribute or a failed template
read leaves the body content unmodified with no error; a successful read
applies the slot substitution; without a slot placeholder the template text
is returned verbatim; with a placeholder the first occurrence is replaced by
the body content spliced through the JS replacement-string expansion, which
is the literal content whenever the content contains no dollar character. -/
theorem c7_amended_template_resolution (readFileFn : Str → Option Str)
    (rootDir templatesDir attrs2 content : Str) :
    (attrValueMatch (chars "g-template") attrs2 = none →
      contentToProcess readFileFn rootDir templatesDir attrs2 content = content) ∧
    (∀ name2, attrValueMatch (chars "g-template") attrs2 = some name2 → name2 ≠ [] →
      readFileFn (rootDir ++ '/' :: templatesDir ++ '/' :: name2 ++ chars ".html") = none →
      contentToProcess readFileFn rootDir templatesDir attrs2 content = content) ∧
    (∀ name2 tmpl, attrValueMatch (chars "g-template") attrs2 = some name2 → name2 ≠ [] →
      readFileFn (rootDir ++ '/' :: templatesDir ++ '/' :: name2 ++ chars ".html") =
        some tmpl →
      contentToProcess readFileFn rootDir templatesDir attrs2 content =
        slotReplace tmpl content) ∧
    (∀ tmpl, slotFind tmpl = none → slotReplace tmpl content = tmpl) ∧
    (∀ tmpl b0 m0 a0, slotFind tmpl = some (b0, m0, a0) → '$' ∉ content →
      slotReplace tmpl content = b0 ++ content ++ a0) := by
  refine ⟨?_, ?_, ?_, ?_, ?_⟩
  · intro h; unfold contentToProcess; simp [h]
  · intro name2 h hne hrf
    unfold contentToProcess
    simp only [h, if_neg hne, hrf]
  · intro name2 tmpl h hne hrf
    unfold contentToProcess
    simp only [h, if_neg hne, hrf]
  · intro tmpl h; unfold slotReplace; simp [h]
  · intro tmpl b0 m0 a0 h hnd
    unfold slotReplace
    simp only [h]
    rw [jsSubstitution_no_dollar _ _ _ _ _ hnd]

/-- Claim C7 witness: a concrete template with a paired empty slot and a
dollar-free content, spliced literally. -/
theorem c7_witness :
    slotReplace (chars "<main><slot></slot></main>") (chars "hi") =
      chars "<main>" ++ chars "hi" ++ chars "</main>" :=
  (c7_amended_template_resolution noFile (chars "r") (chars "t") (chars "")
    (chars "hi")).2.2.2.2 (chars "<main><slot></slot></main>") (chars "<main>")
    (chars "<slot></slot>") (chars "</main>") (by decide) (by decide)

/-- Claim C8 counterexample: the middleware variant returns a fragment
unchanged without invoking the renderer, so the result is not the renderer
output as claimed. -/
theorem c8_counterexample :
    mwProcessHtmlString (constRender (chars "Y")) noParse (chars "x") =
      Except.ok (chars "x") ∧
    chars "x" ≠ chars "Y" :=
  ⟨rfl, by decide⟩

/-- Claim C8 (amended): for an input classified as a fragment, the post-build
variant hands the entire string to the renderer with the merged base state
and returns its result verbatim, while the middleware variant returns the
fragment unchanged without invoking the renderer, for every renderer. -/
theorem c8_amended_fragment_paths {V : Type} (render : Str → Scope V → Except String Str)
    (jsonParse : Str → Option (Scope V)) (readFileFn : Str → Option Str)
    (optState : Scope V) (templatesDir rootDir : Str) (html : Str)
    (hfrag : isFullDocument html = false) :
    idxProcessHtmlString render jsonParse readFileFn optState templatesDir rootDir html =
      render html (idxBaseState jsonParse optState html) ∧
    mwProcessHtmlString render jsonParse html = Except.ok html :=
  ⟨idxProcessHtmlString_fragment render jsonParse readFileFn optState templatesDir
      rootDir html hfrag,
    mwProcessHtmlString_fragment render jsonParse html hfrag⟩

/-- Claim C8 witness: a concrete fragment rendered by the identity renderer
through the post-build variant. -/
theorem c8_witness :
    idxProcessHtmlString okRender noParse noFile [] (chars "t") (chars "r") (chars "frag") =
      Except.ok (chars "frag") := by
  have h := (c8_amended_fragment_paths okRender noParse noFile [] (chars "t") (chars "r")
    (chars "frag") (by decide)).1
  exact h.trans rfl

/-- Claim C9 (confirmed): the per-file pass writes the transformed content
exactly when it differs from the original file content, and performs no
write when the transformation returns the input unchanged; the write
decision is the returned option. -/
theorem c9_conditional_write {V : Type} (render : Str → Scope V → Except String Str)
    (jsonParse : Str → Option (Scope V)) (readFileFn : Str → Option Str)
    (optState : Scope V) (templatesDir rootDir : Str) (html r : Str)
    (h : idxProcessHtmlString render jsonParse readFileFn optState templatesDir rootDir
      html = Except.ok r) :
    idxProcessHtmlFile render jsonParse readFileFn optState templatesDir rootDir html =
      Except.ok (if r = html then none else some r) := by
  unfold idxProcessHtmlFile
  rw [h]

/-- Claim C9 witness: an unchanged fragment produces no write. -/
theorem c9_witness :
    idxProcessHtmlFile okRender noParse noFile [] (chars "t") (chars "r") (chars "z") =
      Except.ok none := by
  have h := c9_conditional_write okRender noParse noFile [] (chars "t") (chars "r")
    (chars "z") (chars "z") rfl
  exact h.trans rfl
